import Mathlib

/-!
# Verification of the certificate/OCSP cache and the HTML node-cleanup transform

Two developments in one file.

Section 1 embeds the certificate/OCSP cache and refresh engine.  The cache
implementation itself is exercised by the repository's test suite
(`certcache_test.go`) but its source file is not part of this corpus, so the
definitions are modelled from the specification (spec sections 3, 4.1-4.5, 6
and 7) and cross-checked against the behaviours the test suite pins down.
Timestamps are nanosecond counts, as in Go `time.Time`.

Section 2 embeds `nodeCleanupTransform` from
`transformer/transformers/nodeCleanup.go` over a rose-tree representation of
`golang.org/x/net/html` nodes, and settles the attribute-cleanup invariant.
-/

namespace AmpPkg

/-! ## Section 1: certificate / OCSP cache (spec model) -/

/-- Modelled from the spec: the revocation status carried by a proof
(missing source: the certcache module); spec 4.1 check (2) requires `good`. -/
inductive OCSPStatus where
  | good
  | revoked
  | unknownStatus
deriving DecidableEq, Repr

/-- Modelled from the spec: the leaf certificate's own validity window
`[notBefore, notAfter]` (missing source: the certcache module). -/
structure LeafCert where
  notBefore : Int
  notAfter : Int
deriving DecidableEq, Repr

/-- Modelled from the spec: a revocation proof — the raw signed byte blob
plus its parsed fields (spec section 3; missing source: the certcache
module). -/
structure OCSPProof where
  raw : List Nat
  status : OCSPStatus
  thisUpdate : Int
  nextUpdate : Int
  producedAt : Int
deriving DecidableEq, Repr

/-- Modelled from the spec: the validator's distinct rejection reasons
(spec 4.1: any failure is reported as a distinct error reason, not a single
boolean). -/
inductive OCSPError where
  | statusNotGood
  | outsideUpdateWindow
  | producedAtOutsideCertWindow
deriving DecidableEq, Repr

/-- Modelled from the spec: `Validate(proof, leafCert, now)` (spec 4.1;
missing source: the certcache module).  Check (1), decode of the raw bytes,
is represented upstream by `Option.none` candidates; the remaining checks
run in order: (2) status is Good, (3) `now` lies in
`[thisUpdate, nextUpdate)`, (4) `producedAt` lies in the leaf certificate's
`[notBefore, notAfter]`.  `none` means the candidate is valid. -/
def validateOCSP (p : OCSPProof) (leaf : LeafCert) (now : Int) : Option OCSPError :=
  if p.status ≠ OCSPStatus.good then some OCSPError.statusNotGood
  else if ¬ (p.thisUpdate ≤ now ∧ now < p.nextUpdate) then some OCSPError.outsideUpdateWindow
  else if ¬ (leaf.notBefore ≤ p.producedAt ∧ p.producedAt ≤ leaf.notAfter) then
    some OCSPError.producedAtOutsideCertWindow
  else none

/-- Modelled from the spec: the proof's validity midpoint
`thisUpdate + (nextUpdate - thisUpdate)/2` (spec section 3). -/
def ocspMidpoint (p : OCSPProof) : Int :=
  p.thisUpdate + (p.nextUpdate - p.thisUpdate) / 2

/-- Modelled from the spec: the Update-After Timestamp — the earlier of the
proof's validity midpoint and the HTTP-cache-derived expiry of the fetch
that produced it; a proof loaded from disk has no HTTP expiry (spec
section 3). -/
def updateAfterTime (p : OCSPProof) (httpExpiry : Option Int) : Int :=
  match httpExpiry with
  | none => ocspMidpoint p
  | some e => min (ocspMidpoint p) e

/-- Modelled from the spec: the cache's state — the current accepted proof,
its update-after timestamp, and the decoded view of the single on-disk
file (`none` when the file is absent or corrupt; spec 4.2). -/
structure CacheState where
  proof : OCSPProof
  updateAfterT : Int
  disk : Option OCSPProof
deriving DecidableEq, Repr

/-- Modelled from the spec: result of one refresh attempt — the state
afterwards and whether the network fetcher was invoked. -/
structure RefreshResult where
  state : CacheState
  fetcherCalled : Bool
deriving DecidableEq, Repr

/-- Modelled from the spec: the network leg of a refresh attempt
(spec 4.4 "Refresh attempted"; missing source: the certcache module).
The fetcher is invoked; `fetchResult` is the responder's answer — the
decoded proof plus the HTTP-cache-derived expiry, or `none` for a
transport or decode failure.  A candidate failing validation is discarded
and the previous state retained unchanged; on acceptance the proof is
replaced, persisted, and the update-after timestamp recomputed. -/
def fetchRefresh (leaf : LeafCert) (st : CacheState)
    (fetchResult : Option (OCSPProof × Int)) (now : Int) : RefreshResult :=
  match fetchResult with
  | some (cand, expiry) =>
    if validateOCSP cand leaf now = none then
      { state := { proof := cand, updateAfterT := updateAfterTime cand (some expiry),
                   disk := some cand },
        fetcherCalled := true }
    else
      { state := st, fetcherCalled := true }
  | none => { state := st, fetcherCalled := true }

/-- Modelled from the spec: one refresh attempt of the stale cache
(spec 4.4; missing source: the certcache module).  Disk recovery comes
first (spec section 8): a proof on disk that differs from the in-memory
one (for instance written by another process instance), validates, and is
not past its midpoint-based update-after time is adopted without a
network fetch; otherwise the network leg `fetchRefresh` runs. -/
def refreshOCSP (leaf : LeafCert) (st : CacheState)
    (fetchResult : Option (OCSPProof × Int)) (now : Int) : RefreshResult :=
  match st.disk with
  | some d =>
    if d ≠ st.proof ∧ validateOCSP d leaf now = none ∧ now < updateAfterTime d none then
      { state := { proof := d, updateAfterT := updateAfterTime d none, disk := st.disk },
        fetcherCalled := false }
    else fetchRefresh leaf st fetchResult now
  | none => fetchRefresh leaf st fetchResult now

/-- Modelled from the spec: the value returned to a reader of the cache. -/
structure ReadResult where
  state : CacheState
  raw : List Nat
  updateAfterT : Int
  err : Option String
  fetcherCalled : Bool
deriving DecidableEq, Repr

/-- Modelled from the spec: `ReadOCSP(forceCheck)` (spec 4.4; missing
source: the certcache module).  When `forceCheck` is true and the proof is
stale (`now` at or past the update-after timestamp), the refresh runs
inline before returning; otherwise the cached value is returned
immediately.  Refresh failures are absorbed, never surfaced to the reader
(spec section 7), so `err` is `none` whenever a previously accepted proof
exists — which the initialized state guarantees. -/
def readOCSP (leaf : LeafCert) (st : CacheState)
    (fetchResult : Option (OCSPProof × Int)) (now : Int) (forceCheck : Bool) : ReadResult :=
  if forceCheck ∧ st.updateAfterT ≤ now then
    let r := refreshOCSP leaf st fetchResult now
    { state := r.state, raw := r.state.proof.raw, updateAfterT := r.state.updateAfterT,
      err := none, fetcherCalled := r.fetcherCalled }
  else
    { state := st, raw := st.proof.raw, updateAfterT := st.updateAfterT,
      err := none, fetcherCalled := false }

/-- Modelled from the spec: the disk-load leg of `Init()` — a decoded
disk proof that validates; absence, corruption (already `none` upstream)
and failed validation are non-fatal and yield nothing (spec 4.2). -/
def diskValidOf (leaf : LeafCert) (diskLoad : Option OCSPProof) (now : Int) : Option OCSPProof :=
  match diskLoad with
  | some d => if validateOCSP d leaf now = none then some d else none
  | none => none

/-- Modelled from the spec: the fetch leg of `Init()` — the cache state
accepted from a validated fetched candidate, otherwise nothing. -/
def fetchAcceptOf (leaf : LeafCert) (fetchResult : Option (OCSPProof × Int)) (now : Int) :
    Option CacheState :=
  match fetchResult with
  | some (cand, expiry) =>
    if validateOCSP cand leaf now = none then
      some { proof := cand, updateAfterT := updateAfterTime cand (some expiry),
             disk := some cand }
    else none
  | none => none

/-- Modelled from the spec: `Init()` (spec 4.4; missing source: the
certcache module).  Attempts the disk load; a valid, still-fresh disk
proof is used without fetching.  If the disk proof is missing, invalid, or
already past its update-after time, a live fetch is attempted; a validated
candidate is accepted, otherwise a still-valid (if stale) disk proof is
retained.  When no valid proof is obtainable by either path,
initialization fails fatally with "Missing OCSP response".  The boolean
reports whether the fetcher was invoked. -/
def initCache (leaf : LeafCert) (diskLoad : Option OCSPProof)
    (fetchResult : Option (OCSPProof × Int)) (now : Int) :
    Except String (CacheState × Bool) :=
  match diskValidOf leaf diskLoad now with
  | some d =>
    if now < updateAfterTime d none then
      Except.ok ({ proof := d, updateAfterT := updateAfterTime d none, disk := some d }, false)
    else
      match fetchAcceptOf leaf fetchResult now with
      | some st => Except.ok (st, true)
      | none =>
        Except.ok ({ proof := d, updateAfterT := updateAfterTime d none, disk := some d }, true)
  | none =>
    match fetchAcceptOf leaf fetchResult now with
    | some st => Except.ok (st, true)
    | none => Except.error "Missing OCSP response"

/-- Modelled from the spec: `IsHealthy()` (spec 4.4; missing source: the
certcache module): an error exactly when the cached proof's `nextUpdate`
has already passed relative to the current clock. -/
def isHealthy (st : CacheState) (now : Int) : Option String :=
  if st.proof.nextUpdate ≤ now then some "OCSP response past its validity window" else none

/-- Modelled from the spec: the CBOR-like payload items of the cert-chain
response (spec section 6). -/
inductive CBORItem where
  | text (s : String)
  | bytes (b : List Nat)
  | array (items : List CBORItem)
  | map (entries : List (String × CBORItem))

/-- Modelled from the spec: an HTTP response body — either the CBOR
cert-chain payload or a short plain-text message. -/
inductive HTTPBody where
  | cbor (item : CBORItem)
  | plain (s : String)

/-- Modelled from the spec: the parts of an HTTP response the serving
adapter produces (spec section 6). -/
structure HTTPResponse where
  status : Nat
  headers : List (String × String)
  body : HTTPBody

/-- Modelled from the spec: header lookup on a response. -/
def getHeader (r : HTTPResponse) (k : String) : Option String :=
  (r.headers.find? (fun h => h.fst == k)).map (fun h => h.snd)

/-- Modelled from the spec: the served `max-age`, in whole seconds:
`max(0, UpdateAfterTimestamp - now)` rounded down to whole seconds
(spec section 3 "Cache-Control Value"); timestamps are in nanoseconds. -/
def maxAgeSeconds (updateAfterT now : Int) : Int :=
  max 0 (updateAfterT - now) / 1000000000

/-- Modelled from the spec: the CBOR payload of the cert-chain response:
an outer array of `1 + number of certificates` items, starting with the
magic text, then one header-map per certificate; the leaf's map carries
exactly the keys "cert" and "ocsp" (no "sct" in the base case), later
certificates a single "cert" key (spec 4.5 and section 6). -/
def certChainCBOR : List (List Nat) → List Nat → CBORItem
  | [], _ => CBORItem.array [CBORItem.text "📜⛓"]
  | leafDer :: rest, ocspRaw =>
    CBORItem.array (CBORItem.text "📜⛓" ::
      CBORItem.map [("cert", CBORItem.bytes leafDer), ("ocsp", CBORItem.bytes ocspRaw)] ::
      rest.map (fun der => CBORItem.map [("cert", CBORItem.bytes der)]))

/-- Modelled from the spec: the HTTP serving adapter for
`GET /cert/<name>` (spec 4.5 and section 6; missing source: the certcache
module).  A known name yields 200 with the CBOR payload,
`X-Content-Type-Options: nosniff`, and
`Cache-Control: public, max-age=<seconds until the update-after time,
floored at 0>`; an unknown name yields 404 with the standard short
not-found body (19 bytes). -/
def serveCertChain (certName requested : String) (chain : List (List Nat))
    (st : CacheState) (now : Int) : HTTPResponse :=
  if requested = certName then
    { status := 200,
      headers := [("X-Content-Type-Options", "nosniff"),
                  ("Cache-Control",
                    "public, max-age=" ++ toString (maxAgeSeconds st.updateAfterT now))],
      body := HTTPBody.cbor (certChainCBOR chain st.proof.raw) }
  else
    { status := 404, headers := [], body := HTTPBody.plain "404 page not found\x0a" }

/-- A concrete leaf certificate, used by witnesses. -/
def leafW : LeafCert := { notBefore := 0, notAfter := 1000 }

/-- A concrete revocation proof, valid for `leafW` at time 1, used by
witnesses; its validity midpoint is 50. -/
def proofW : OCSPProof :=
  { raw := [1], status := OCSPStatus.good, thisUpdate := 0, nextUpdate := 100, producedAt := 0 }

/-- The cache state holding `proofW`, as produced by initializing from a
disk file containing it. -/
def stW : CacheState := { proof := proofW, updateAfterT := 50, disk := some proofW }

/-- A concrete candidate whose `producedAt` lies outside `leafW`'s
validity window, used by witnesses. -/
def badProofW : OCSPProof :=
  { raw := [2], status := OCSPStatus.good, thisUpdate := 0, nextUpdate := 100, producedAt := 2000 }

/-! ## Section 2: the HTML node-cleanup transform

Embedding of `nodeCleanupTransform` and its helpers from
`transformer/transformers/nodeCleanup.go`.  Go's `html.Node` uses
parent/child/sibling pointers; here a node is a rose tree, and the context
a visited node needs — the `Parent` chain for `IsDescendantOf`/`IsChildOf`
and the parent's `Data` for the noscript check, plus the already-processed
previous siblings for `maybeStripTitle` — is passed explicitly.  A visited
node maps to the list of nodes that replace it (empty when the source
removes it via `RemoveChild`).  `html.ParseFragment` is an external
library function and enters the model as the parameter `pf`; exactly as in
the source, its outputs are inserted into the tree without any further
cleanup (the child loop's captured `next` pointer is nil for the single
text child the tokenizer produces under noscript, so the appended nodes
are never visited). -/

/-- Go `html.NodeType` (golang.org/x/net/html). -/
inductive NodeType where
  | errorNode
  | textNode
  | documentNode
  | elementNode
  | commentNode
  | doctypeNode
  | rawNode
deriving DecidableEq, Repr

/-- Go `html.Attribute`: namespace, key and value. -/
structure HTMLAttribute where
  nspace : String
  key : String
  val : String
deriving DecidableEq, Repr

/-- Go `html.Node` as a rose tree: type, `DataAtom` (atoms are interned
tag names, represented by the tag string, empty for non-elements), `Data`,
attributes and children. -/
inductive HTMLNode where
  | mk (ntype : NodeType) (dataAtom : String) (data : String)
       (attr : List HTMLAttribute) (children : List HTMLNode)

/-- The node's type field. -/
def HTMLNode.ntype : HTMLNode → NodeType
  | .mk t _ _ _ _ => t

/-- The node's `DataAtom` field. -/
def HTMLNode.dataAtom : HTMLNode → String
  | .mk _ a _ _ _ => a

/-- The node's `Data` field. -/
def HTMLNode.data : HTMLNode → String
  | .mk _ _ d _ _ => d

/-- The node's attribute list. -/
def HTMLNode.attr : HTMLNode → List HTMLAttribute
  | .mk _ _ _ a _ => a

/-- The node's children. -/
def HTMLNode.children : HTMLNode → List HTMLNode
  | .mk _ _ _ _ c => c

/-- Loop body of `uniqueAttributes`: `seen` is the set of keys already
encountered (the Go map `m`). -/
def uniqueAttrsAux : List HTMLAttribute → List String → List HTMLAttribute
  | [], _ => []
  | a :: rest, seen =>
    if a.key ∈ seen then uniqueAttrsAux rest seen
    else a :: uniqueAttrsAux rest (a.key :: seen)

/-- Translation of `uniqueAttributes` (nodeCleanup.go): returns the
attributes with a unique key, keeping the first one encountered. -/
def uniqueAttributes (attrs : List HTMLAttribute) : List HTMLAttribute :=
  uniqueAttrsAux attrs []

/-- Translation of the nonce-stripping loop in `nodeCleanupTransform`: the
Go loop walks the attribute slice from the last index down to 0, deleting
every attribute whose key is "nonce"; deleting at the current index never
affects lower indices, so the loop computes exactly this filter. -/
def stripNonceAttrs (attrs : List HTMLAttribute) : List HTMLAttribute :=
  attrs.filter (fun a => a.key != "nonce")

/-- The characters of the Go constant `unsanitaryURIChars` = "\t\n\r". -/
def unsanitaryURIChars : List Char := ['\t', '\x0a', '\x0d']

/-- The loop body of `sanitizeURIAttributes`: strips tab, LF and CR from
the value of a `src` or `href` attribute (Go's `strings.Map` returning -1
deletes the rune); other attributes pass through unchanged. -/
def sanitizeOne (a : HTMLAttribute) : HTMLAttribute :=
  if a.key == "src" || a.key == "href" then
    { a with val :=
        String.mk (a.val.toList.filter (fun c => !(unsanitaryURIChars.contains c))) }
  else a

/-- Translation of `sanitizeURIAttributes` (nodeCleanup.go): sanitizes
every attribute value in place. -/
def sanitizeURIAttributes (attrs : List HTMLAttribute) : List HTMLAttribute :=
  attrs.map sanitizeOne

/-- The characters of the Go constant `whitespace` = " \t\r\n\f". -/
def whitespaceChars : List Char := [' ', '\t', '\x0d', '\x0a', '\x0c']

/-- `strings.TrimLeft(s, whitespace)` is empty exactly when every
character of `s` belongs to the cutset. -/
def isWhitespaceOnly (s : String) : Bool :=
  s.toList.all (fun c => whitespaceChars.contains c)

/-- `htmlnode.IsDescendantOf` over the explicit ancestor context: some
ancestor (nearest first, each a `(dataAtom, data)` pair) has the given
atom. -/
def isDescendantOfAtom (ancestors : List (String × String)) (a : String) : Bool :=
  ancestors.any (fun p => p.fst == a)

/-- `htmlnode.IsChildOf` over the explicit ancestor context: the immediate
parent has the given atom. -/
def isChildOfAtom (ancestors : List (String × String)) (a : String) : Bool :=
  match ancestors with
  | [] => false
  | p :: _ => p.fst == a

/-- The parent's `Data` field, when a parent exists. -/
def parentData (ancestors : List (String × String)) : Option String :=
  ancestors.head?.map (fun p => p.snd)

/-- Translation of `maybeStripTitle` (nodeCleanup.go) as a removal
decision for the node with the given atom: a `title` outside svg is
stripped when it is in head with an earlier remaining `title` sibling, or
when it is in body.  `prevSibs` are the already-processed siblings that
remain in the tree — the node's `PrevSibling` chain at the time the source
runs this check. -/
def maybeStripTitleRemoves (ancestors : List (String × String))
    (prevSibs : List HTMLNode) (dataAtom : String) : Bool :=
  if dataAtom != "title" || isDescendantOfAtom ancestors "svg" then false
  else if isDescendantOfAtom ancestors "head" then
    prevSibs.any (fun s => s.dataAtom == "title")
  else if isDescendantOfAtom ancestors "body" then true
  else false

mutual

/-- Translation of `nodeCleanupTransform` (nodeCleanup.go).  Comment nodes
are removed; element nodes get their attributes deduplicated,
nonce-stripped and URI-sanitized, and an extraneous `title` is removed;
a doctype is forced to HTML 5; a text node under a `noscript` parent is
replaced by the fragments `pf` parses from its contents — inserted without
cleanup — and a whitespace-only text node outside body/title is removed.
Children are processed left to right, each seeing the processed siblings
before it. -/
def nodeCleanupTransform (pf : String → List HTMLNode)
    (ancestors : List (String × String)) (prevSibs : List HTMLNode) :
    HTMLNode → List HTMLNode
  | .mk .commentNode _ _ _ _ => []
  | .mk .elementNode dataAtom data attr children =>
    let attr1 := sanitizeURIAttributes (stripNonceAttrs (uniqueAttributes attr))
    if dataAtom == "title" && maybeStripTitleRemoves ancestors prevSibs dataAtom then []
    else
      [HTMLNode.mk .elementNode dataAtom data attr1
        (cleanupChildren pf ((dataAtom, data) :: ancestors) [] children)]
  | .mk .doctypeNode dataAtom _ _ children =>
    [HTMLNode.mk .doctypeNode dataAtom "html" []
      (cleanupChildren pf ((dataAtom, "html") :: ancestors) [] children)]
  | .mk .textNode dataAtom data attr children =>
    if parentData ancestors == some "noscript" then pf data
    else if isWhitespaceOnly data && !(isDescendantOfAtom ancestors "body")
        && !(isChildOfAtom ancestors "title") then []
    else
      [HTMLNode.mk .textNode dataAtom data attr
        (cleanupChildren pf ((dataAtom, data) :: ancestors) [] children)]
  | .mk .errorNode dataAtom data attr children =>
    [HTMLNode.mk .errorNode dataAtom data attr
      (cleanupChildren pf ((dataAtom, data) :: ancestors) [] children)]
  | .mk .documentNode dataAtom data attr children =>
    [HTMLNode.mk .documentNode dataAtom data attr
      (cleanupChildren pf ((dataAtom, data) :: ancestors) [] children)]
  | .mk .rawNode dataAtom data attr children =>
    [HTMLNode.mk .rawNode dataAtom data attr
      (cleanupChildren pf ((dataAtom, data) :: ancestors) [] children)]

/-- The child loop of `nodeCleanupTransform`: processes the children in
order, accumulating the processed output (which is what each later child
sees as its remaining previous siblings). -/
def cleanupChildren (pf : String → List HTMLNode)
    (ancestors : List (String × String)) (processed : List HTMLNode) :
    List HTMLNode → List HTMLNode
  | [] => processed
  | c :: rest =>
    cleanupChildren pf ancestors
      (processed ++ nodeCleanupTransform pf ancestors processed c) rest

end

/-- The keys of an attribute list are pairwise distinct. -/
def distinctKeys : List HTMLAttribute → Bool
  | [] => true
  | a :: rest => !(rest.any (fun b => b.key == a.key)) && distinctKeys rest

/-- The cleanup invariant on one attribute list: pairwise-distinct keys
and no "nonce" key. -/
def goodAttrs (attrs : List HTMLAttribute) : Bool :=
  distinctKeys attrs && attrs.all (fun a => a.key != "nonce")

mutual

/-- Every element node in the tree satisfies `goodAttrs`. -/
def elemsGood : HTMLNode → Bool
  | .mk t _ _ attr children =>
    (if t = NodeType.elementNode then goodAttrs attr else true) && elemsGoodList children

/-- Every element node in the forest satisfies `goodAttrs`. -/
def elemsGoodList : List HTMLNode → Bool
  | [] => true
  | n :: rest => elemsGood n && elemsGoodList rest

end

/-- An element carrying a `nonce` attribute — what Go's
`html.ParseFragment` produces for the markup `<img nonce=abc>` (the
parser keeps unknown and global attributes, nonce included). -/
def nonceImg : HTMLNode :=
  HTMLNode.mk .elementNode "img" "img" [⟨"", "nonce", "abc"⟩] []

/-- The fragment parser's behaviour on the text content relevant to the
counterexample: parsing yields the element above. -/
def pfNonce : String → List HTMLNode := fun _ => [nonceImg]

/-- A `body` holding a `noscript` element whose single text child holds
element markup — exactly the shape Go's tokenizer produces, since it
treats noscript children as one big text node (see the comment on
`parseNoscriptContents`); the body supplies the parse context the source
hands to the fragment parser. -/
def noscriptWithText : HTMLNode :=
  HTMLNode.mk .elementNode "body" "body" []
    [HTMLNode.mk .elementNode "noscript" "noscript" []
      [HTMLNode.mk .textNode "" "<img nonce=abc>" [] []]]

/-- A small concrete tree for the C10 witness: a div with a duplicated
`class` key and a `nonce` attribute, holding a text child. -/
def witnessDiv : HTMLNode :=
  HTMLNode.mk .elementNode "div" "div"
    [⟨"", "class", "a"⟩, ⟨"", "nonce", "xyz"⟩, ⟨"", "class", "b"⟩]
    [HTMLNode.mk .textNode "" "hello" [] []]

/-! ## Helper lemmas for the cache model -/

theorem validateOCSP_none_iff (p : OCSPProof) (leaf : LeafCert) (now : Int) :
    validateOCSP p leaf now = none ↔
      p.status = OCSPStatus.good ∧ (p.thisUpdate ≤ now ∧ now < p.nextUpdate) ∧
      (leaf.notBefore ≤ p.producedAt ∧ p.producedAt ≤ leaf.notAfter) := by
  unfold validateOCSP
  split_ifs with h1 h2 h3 <;> simp_all

theorem diskValidOf_some {leaf : LeafCert} {diskLoad : Option OCSPProof} {now : Int}
    {d : OCSPProof} (h : diskValidOf leaf diskLoad now = some d) :
    validateOCSP d leaf now = none := by
  unfold diskValidOf at h
  cases diskLoad with
  | none => simp at h
  | some d0 =>
    by_cases hv : validateOCSP d0 leaf now = none
    · simp [hv] at h
      subst h
      exact hv
    · simp [hv] at h

theorem fetchAcceptOf_some {leaf : LeafCert} {fetchResult : Option (OCSPProof × Int)}
    {now : Int} {st : CacheState} (h : fetchAcceptOf leaf fetchResult now = some st) :
    validateOCSP st.proof leaf now = none := by
  unfold fetchAcceptOf at h
  cases fetchResult with
  | none => simp at h
  | some pe =>
    obtain ⟨cand, expiry⟩ := pe
    by_cases hv : validateOCSP cand leaf now = none
    · simp [hv] at h
      subst h
      exact hv
    · simp [hv] at h

theorem initCache_ok_valid {leaf : LeafCert} {diskLoad : Option OCSPProof}
    {fetchResult : Option (OCSPProof × Int)} {now : Int} {st : CacheState} {called : Bool}
    (h : initCache leaf diskLoad fetchResult now = Except.ok (st, called)) :
    validateOCSP st.proof leaf now = none := by
  unfold initCache at h
  cases hd : diskValidOf leaf diskLoad now with
  | some d =>
    rw [hd] at h
    simp only [] at h
    split_ifs at h with hfresh
    · simp at h
      obtain ⟨h1, h2⟩ := h
      subst h1
      exact diskValidOf_some hd
    · cases hf : fetchAcceptOf leaf fetchResult now with
      | some st2 =>
        rw [hf] at h
        simp at h
        obtain ⟨h1, h2⟩ := h
        subst h1
        exact fetchAcceptOf_some hf
      | none =>
        rw [hf] at h
        simp at h
        obtain ⟨h1, h2⟩ := h
        subst h1
        exact diskValidOf_some hd
  | none =>
    rw [hd] at h
    cases hf : fetchAcceptOf leaf fetchResult now with
    | some st2 =>
      rw [hf] at h
      simp at h
      obtain ⟨h1, h2⟩ := h
      subst h1
      exact fetchAcceptOf_some hf
    | none =>
      rw [hf] at h
      simp at h

theorem fetchRefresh_valid_or_same (leaf : LeafCert) (st : CacheState)
    (fetchResult : Option (OCSPProof × Int)) (now : Int) :
    (fetchRefresh leaf st fetchResult now).state.proof = st.proof ∨
    validateOCSP (fetchRefresh leaf st fetchResult now).state.proof leaf now = none := by
  unfold fetchRefresh
  cases fetchResult with
  | none => exact Or.inl rfl
  | some pe =>
    obtain ⟨cand, expiry⟩ := pe
    dsimp only
    by_cases hv : validateOCSP cand leaf now = none
    · rw [if_pos hv]
      exact Or.inr hv
    · rw [if_neg hv]
      exact Or.inl rfl

theorem refreshOCSP_valid_or_same (leaf : LeafCert) (st : CacheState)
    (fetchResult : Option (OCSPProof × Int)) (now : Int) :
    (refreshOCSP leaf st fetchResult now).state.proof = st.proof ∨
    validateOCSP (refreshOCSP leaf st fetchResult now).state.proof leaf now = none := by
  obtain ⟨pr, ua, dsk⟩ := st
  unfold refreshOCSP
  cases dsk with
  | none => exact fetchRefresh_valid_or_same leaf _ fetchResult now
  | some d =>
    dsimp only
    split_ifs with hcond
    · exact Or.inr hcond.2.1
    · exact fetchRefresh_valid_or_same leaf _ fetchResult now

/-! ## Claim theorems C1-C4 -/

/-- C1: every revocation proof accepted by the cache — at `Init()` from a
disk load or a live fetch, or at a refresh — satisfies, at the moment of
acceptance, `thisUpdate ≤ now < nextUpdate` and
`leaf.notBefore ≤ producedAt ≤ leaf.notAfter`; and a candidate violating
either window never passes the validator, hence never becomes the stored
proof. -/
theorem accepted_proof_windows (leaf : LeafCert) (now : Int) :
    (∀ diskLoad fetchResult st called,
        initCache leaf diskLoad fetchResult now = Except.ok (st, called) →
        st.proof.thisUpdate ≤ now ∧ now < st.proof.nextUpdate ∧
        leaf.notBefore ≤ st.proof.producedAt ∧ st.proof.producedAt ≤ leaf.notAfter)
    ∧ (∀ st fetchResult,
        (refreshOCSP leaf st fetchResult now).state.proof = st.proof ∨
        ((refreshOCSP leaf st fetchResult now).state.proof.thisUpdate ≤ now ∧
          now < (refreshOCSP leaf st fetchResult now).state.proof.nextUpdate ∧
          leaf.notBefore ≤ (refreshOCSP leaf st fetchResult now).state.proof.producedAt ∧
          (refreshOCSP leaf st fetchResult now).state.proof.producedAt ≤ leaf.notAfter))
    ∧ (∀ p : OCSPProof,
        ¬ (p.thisUpdate ≤ now ∧ now < p.nextUpdate ∧
           leaf.notBefore ≤ p.producedAt ∧ p.producedAt ≤ leaf.notAfter) →
        validateOCSP p leaf now ≠ none) := by
  refine ⟨?_, ?_, ?_⟩
  · intro diskLoad fetchResult st called h
    have hv := (validateOCSP_none_iff st.proof leaf now).mp (initCache_ok_valid h)
    exact ⟨hv.2.1.1, hv.2.1.2, hv.2.2.1, hv.2.2.2⟩
  · intro st fetchResult
    rcases refreshOCSP_valid_or_same leaf st fetchResult now with h | h
    · exact Or.inl h
    · have hv := (validateOCSP_none_iff _ leaf now).mp h
      exact Or.inr ⟨hv.2.1.1, hv.2.1.2, hv.2.2.1, hv.2.2.2⟩
  · intro p hp hv
    have h := (validateOCSP_none_iff p leaf now).mp hv
    exact hp ⟨h.2.1.1, h.2.1.2, h.2.2.1, h.2.2.2⟩

/-- C1 witness: the first part of the theorem applied to the concrete
initialization from a disk file holding `proofW` at time 1. -/
theorem accepted_proof_windows_witness :
    stW.proof.thisUpdate ≤ 1 ∧ (1 : Int) < stW.proof.nextUpdate ∧
    leafW.notBefore ≤ stW.proof.producedAt ∧ stW.proof.producedAt ≤ leafW.notAfter :=
  (accepted_proof_windows leafW 1).1 (some proofW) none stW false (by rfl)

theorem refreshOCSP_invalid_retains {leaf : LeafCert} {st : CacheState}
    {cand : OCSPProof} {expiry now : Int}
    (hdisk : st.disk = none ∨ st.disk = some st.proof)
    (hinv : validateOCSP cand leaf now ≠ none) :
    refreshOCSP leaf st (some (cand, expiry)) now = { state := st, fetcherCalled := true } := by
  have hfetch : fetchRefresh leaf st (some (cand, expiry)) now =
      { state := st, fetcherCalled := true } := by
    unfold fetchRefresh
    dsimp only
    rw [if_neg hinv]
  unfold refreshOCSP
  rcases hdisk with h | h <;> rw [h]
  · exact hfetch
  · dsimp only
    rw [if_neg]
    · exact hfetch
    · intro hcond
      exact hcond.1 rfl

/-- C2: presenting an invalid candidate during a forced-read refresh
leaves the previously cached proof unchanged and byte-identical, and the
failure is not surfaced to the reader as an error. -/
theorem refresh_rejection_safety (leaf : LeafCert) (st : CacheState)
    (cand : OCSPProof) (expiry now : Int)
    (hdisk : st.disk = none ∨ st.disk = some st.proof)
    (hinv : validateOCSP cand leaf now ≠ none) :
    (readOCSP leaf st (some (cand, expiry)) now true).state.proof = st.proof ∧
    (readOCSP leaf st (some (cand, expiry)) now true).raw = st.proof.raw ∧
    (readOCSP leaf st (some (cand, expiry)) now true).err = none := by
  unfold readOCSP
  split_ifs with hstale
  · rw [refreshOCSP_invalid_retains hdisk hinv]
    exact ⟨rfl, rfl, rfl⟩
  · exact ⟨rfl, rfl, rfl⟩

/-- C2 witness: a stale cache holding `proofW` rejects the candidate with
an out-of-window `producedAt` and keeps serving `proofW`. -/
theorem refresh_rejection_safety_witness :
    (readOCSP leafW stW (some (badProofW, 0)) 60 true).state.proof = stW.proof ∧
    (readOCSP leafW stW (some (badProofW, 0)) 60 true).raw = stW.proof.raw ∧
    (readOCSP leafW stW (some (badProofW, 0)) 60 true).err = none :=
  refresh_rejection_safety leafW stW badProofW 0 60 (Or.inr rfl) (by decide)

theorem diskValidOf_eq_none_iff (leaf : LeafCert) (diskLoad : Option OCSPProof) (now : Int) :
    diskValidOf leaf diskLoad now = none ↔
      ∀ d, diskLoad = some d → validateOCSP d leaf now ≠ none := by
  unfold diskValidOf
  cases diskLoad with
  | none => simp
  | some d =>
    dsimp only
    split_ifs with hv <;> simp [hv]

theorem fetchAcceptOf_eq_none_iff (leaf : LeafCert) (fetchResult : Option (OCSPProof × Int))
    (now : Int) :
    fetchAcceptOf leaf fetchResult now = none ↔
      ∀ c e, fetchResult = some (c, e) → validateOCSP c leaf now ≠ none := by
  unfold fetchAcceptOf
  cases fetchResult with
  | none => simp
  | some pe =>
    obtain ⟨cand, expiry⟩ := pe
    dsimp only
    split_ifs with hv <;> simp [hv]

theorem initCache_error_iff (leaf : LeafCert) (diskLoad : Option OCSPProof)
    (fetchResult : Option (OCSPProof × Int)) (now : Int) :
    initCache leaf diskLoad fetchResult now = Except.error "Missing OCSP response" ↔
      diskValidOf leaf diskLoad now = none ∧ fetchAcceptOf leaf fetchResult now = none := by
  unfold initCache
  cases hd : diskValidOf leaf diskLoad now with
  | none =>
    cases hf : fetchAcceptOf leaf fetchResult now with
    | none => simp
    | some st2 => simp
  | some d =>
    dsimp only
    split_ifs with hfresh
    · simp
    · cases hf : fetchAcceptOf leaf fetchResult now with
      | none => simp
      | some st2 => simp

/-- C3: initialization fails exactly when neither the disk load nor the
live fetch yields a proof that passes validation; its only error is the
fatal descriptive "Missing OCSP response"; when either path yields a
valid proof, `Init()` succeeds. -/
theorem init_missing_ocsp (leaf : LeafCert) (diskLoad : Option OCSPProof)
    (fetchResult : Option (OCSPProof × Int)) (now : Int) :
    (initCache leaf diskLoad fetchResult now = Except.error "Missing OCSP response" ↔
      (∀ d, diskLoad = some d → validateOCSP d leaf now ≠ none) ∧
      (∀ c e, fetchResult = some (c, e) → validateOCSP c leaf now ≠ none)) ∧
    (∀ msg, initCache leaf diskLoad fetchResult now = Except.error msg →
      msg = "Missing OCSP response") ∧
    (((∃ d, diskLoad = some d ∧ validateOCSP d leaf now = none) ∨
      (∃ c e, fetchResult = some (c, e) ∧ validateOCSP c leaf now = none)) →
      ∃ st called, initCache leaf diskLoad fetchResult now = Except.ok (st, called)) := by
  refine ⟨?_, ?_, ?_⟩
  · rw [initCache_error_iff, diskValidOf_eq_none_iff, fetchAcceptOf_eq_none_iff]
  · intro msg h
    unfold initCache at h
    cases hd : diskValidOf leaf diskLoad now with
    | some d =>
      rw [hd] at h
      dsimp only at h
      split_ifs at h with hfresh
      cases hf : fetchAcceptOf leaf fetchResult now with
      | some st2 => rw [hf] at h; exact Except.noConfusion h
      | none => rw [hf] at h; exact Except.noConfusion h
    | none =>
      rw [hd] at h
      cases hf : fetchAcceptOf leaf fetchResult now with
      | some st2 => rw [hf] at h; exact Except.noConfusion h
      | none =>
        rw [hf] at h
        injection h with h1
        exact h1.symm
  · intro hvalid
    unfold initCache
    cases hd : diskValidOf leaf diskLoad now with
    | some d =>
      dsimp only
      split_ifs with hfresh
      · exact ⟨_, _, rfl⟩
      · cases hf : fetchAcceptOf leaf fetchResult now with
        | some st2 => exact ⟨_, _, rfl⟩
        | none => exact ⟨_, _, rfl⟩
    | none =>
      cases hf : fetchAcceptOf leaf fetchResult now with
      | some st2 => exact ⟨_, _, rfl⟩
      | none =>
        exfalso
        rcases hvalid with ⟨d, hdl, hv⟩ | ⟨c, e, hfr, hv⟩
        · exact (diskValidOf_eq_none_iff leaf diskLoad now).mp hd d hdl hv
        · exact (fetchAcceptOf_eq_none_iff leaf fetchResult now).mp hf c e hfr hv

/-- C3 witness: with an empty disk and a failing fetch, initialization
fails with exactly "Missing OCSP response"; with a valid disk proof it
succeeds. -/
theorem init_missing_ocsp_witness :
    initCache leafW none none 1 = Except.error "Missing OCSP response" ∧
    (∃ st called, initCache leafW (some proofW) none 1 = Except.ok (st, called)) :=
  ⟨(init_missing_ocsp leafW none none 1).1.mpr
      ⟨fun d h => (by cases h), fun c e h => (by cases h)⟩,
    (init_missing_ocsp leafW (some proofW) none 1).2.2
      (Or.inl ⟨proofW, rfl, by decide⟩)⟩

/-- C4: the health probe reports an error exactly when the cached proof's
`nextUpdate` has already passed the current clock: a freshly accepted
proof is healthy, and once `nextUpdate` is in the past with no successful
replacement the probe errors. -/
theorem health_probe (st : CacheState) (now : Int) :
    (isHealthy st now = none ↔ now < st.proof.nextUpdate) ∧
    (∀ leaf diskLoad fetchResult called,
        initCache leaf diskLoad fetchResult now = Except.ok (st, called) →
        isHealthy st now = none) ∧
    (st.proof.nextUpdate ≤ now → ∃ msg, isHealthy st now = some msg) := by
  have hiff : isHealthy st now = none ↔ now < st.proof.nextUpdate := by
    unfold isHealthy
    split_ifs with h
    · simp
      omega
    · simp
      omega
  refine ⟨hiff, ?_, ?_⟩
  · intro leaf diskLoad fetchResult called h
    have hv := (validateOCSP_none_iff st.proof leaf now).mp (initCache_ok_valid h)
    exact hiff.mpr hv.2.1.2
  · intro h
    unfold isHealthy
    rw [if_pos h]
    exact ⟨_, rfl⟩

/-- C4 witness: the freshly initialized cache at time 1 is healthy, and
at time 100 (the proof's `nextUpdate`) the probe errors. -/
theorem health_probe_witness :
    isHealthy stW 1 = none ∧ (∃ msg, isHealthy stW 100 = some msg) :=
  ⟨(health_probe stW 1).2.1 leafW (some proofW) none false (by rfl),
    (health_probe stW 100).2.2 (by decide)⟩

/-! ## Claim theorems C5-C9 -/

theorem fetchRefresh_called (leaf : LeafCert) (st : CacheState)
    (fetchResult : Option (OCSPProof × Int)) (now : Int) :
    (fetchRefresh leaf st fetchResult now).fetcherCalled = true := by
  unfold fetchRefresh
  cases fetchResult with
  | none => rfl
  | some pe =>
    obtain ⟨cand, expiry⟩ := pe
    dsimp only
    split_ifs <;> rfl

theorem refreshOCSP_called {leaf : LeafCert} {st : CacheState}
    {fetchResult : Option (OCSPProof × Int)} {now : Int}
    (hdisk : st.disk = none ∨ st.disk = some st.proof) :
    (refreshOCSP leaf st fetchResult now).fetcherCalled = true := by
  unfold refreshOCSP
  rcases hdisk with h | h <;> rw [h]
  · exact fetchRefresh_called leaf st fetchResult now
  · dsimp only
    rw [if_neg]
    · exact fetchRefresh_called leaf st fetchResult now
    · intro hcond
      exact hcond.1 rfl

/-- C5: the update-after timestamp stored for an accepted proof is the
earlier of its validity midpoint and the HTTP-cache-derived expiry of the
fetch; when the HTTP expiry precedes the midpoint it becomes the
update-after time, and once it has passed a forced read attempts a
refresh. -/
theorem update_after_earlier (leaf : LeafCert) (p : OCSPProof) (e now : Int)
    (st : CacheState) :
    updateAfterTime p (some e) = min (ocspMidpoint p) e ∧
    (e < ocspMidpoint p → updateAfterTime p (some e) = e) ∧
    (validateOCSP p leaf now = none →
      initCache leaf none (some (p, e)) now =
        Except.ok ({ proof := p, updateAfterT := min (ocspMidpoint p) e,
                     disk := some p }, true)) ∧
    ((st.disk = none ∨ st.disk = some st.proof) → st.updateAfterT ≤ now →
      (readOCSP leaf st (some (p, e)) now true).fetcherCalled = true) := by
  refine ⟨rfl, ?_, ?_, ?_⟩
  · intro h
    unfold updateAfterTime
    exact min_eq_right (le_of_lt h)
  · intro hv
    unfold initCache diskValidOf fetchAcceptOf
    dsimp only
    rw [if_pos hv]
    rfl
  · intro hdisk hstale
    unfold readOCSP
    rw [if_pos ⟨rfl, hstale⟩]
    exact refreshOCSP_called hdisk

/-- C5 witness: a valid fetched proof with HTTP expiry 10, earlier than
the midpoint 50, is stored with update-after 10; and at time 60 a forced
read on the `stW` cache invokes the fetcher. -/
theorem update_after_earlier_witness :
    updateAfterTime proofW (some 10) = 10 ∧
    initCache leafW none (some (proofW, 10)) 1 =
      Except.ok ({ proof := proofW, updateAfterT := min (ocspMidpoint proofW) 10,
                   disk := some proofW }, true) ∧
    (readOCSP leafW stW (some (proofW, 10)) 60 true).fetcherCalled = true :=
  ⟨(update_after_earlier leafW proofW 10 1 stW).2.1 (by decide),
    (update_after_earlier leafW proofW 10 1 stW).2.2.1 (by decide),
    (update_after_earlier leafW proofW 10 60 stW).2.2.2 (Or.inr rfl) (by decide)⟩

/-- C6: every read of the chain carries
`Cache-Control: public, max-age=s` where `s` is `updateAfter - now`
floored at 0 and rounded down to whole seconds; a proof at or past its
update-after time is served with `max-age=0`. -/
theorem cache_control_arithmetic (certName : String) (chain : List (List Nat))
    (st : CacheState) (now : Int) :
    getHeader (serveCertChain certName certName chain st now) "Cache-Control" =
      some ("public, max-age=" ++ toString (max 0 (st.updateAfterT - now) / 1000000000)) ∧
    (st.updateAfterT ≤ now →
      getHeader (serveCertChain certName certName chain st now) "Cache-Control" =
        some "public, max-age=0") := by
  constructor
  · unfold serveCertChain getHeader maxAgeSeconds
    simp [List.find?]
  · intro h
    have h0 : max 0 (st.updateAfterT - now) = 0 := by omega
    unfold serveCertChain getHeader maxAgeSeconds
    rw [h0]
    simp [List.find?]
    rfl

/-- C6 witness: the cache holding `proofW` (update-after 50) read at time
60 serves `max-age=0`. -/
theorem cache_control_arithmetic_witness :
    getHeader (serveCertChain "cert0" "cert0" [] stW 60) "Cache-Control" =
      some "public, max-age=0" :=
  (cache_control_arithmetic "cert0" [] stW 60).2 (by decide)

/-- C7: a fresh valid proof on disk at startup is used with no network
fetch and served byte-identical to the disk contents; a fresh valid
in-memory proof never triggers a fetch on read; and a forced read that
finds a fresh valid proof, differing from the cached one, on disk adopts
it without fetching. -/
theorem disk_recovery_no_fetch (leaf : LeafCert) (d : OCSPProof)
    (fetchResult : Option (OCSPProof × Int)) (st : CacheState) (now : Int) :
    (validateOCSP d leaf now = none → now < updateAfterTime d none →
      initCache leaf (some d) fetchResult now =
        Except.ok ({ proof := d, updateAfterT := updateAfterTime d none,
                     disk := some d }, false)) ∧
    (now < st.updateAfterT →
      ∀ force, (readOCSP leaf st fetchResult now force).fetcherCalled = false ∧
        (readOCSP leaf st fetchResult now force).raw = st.proof.raw) ∧
    (st.disk = some d → d ≠ st.proof → validateOCSP d leaf now = none →
      now < updateAfterTime d none → st.updateAfterT ≤ now →
      (readOCSP leaf st fetchResult now true).fetcherCalled = false ∧
      (readOCSP leaf st fetchResult now true).raw = d.raw) := by
  refine ⟨?_, ?_, ?_⟩
  · intro hv hfresh
    unfold initCache diskValidOf
    dsimp only
    rw [if_pos hv]
    dsimp only
    rw [if_pos hfresh]
  · intro hfresh force
    unfold readOCSP
    rw [if_neg]
    · exact ⟨rfl, rfl⟩
    · intro hcond
      omega
  · intro hdisk hne hv hfresh hstale
    unfold readOCSP
    rw [if_pos ⟨rfl, hstale⟩]
    unfold refreshOCSP
    rw [hdisk]
    dsimp only
    rw [if_pos ⟨hne, hv, hfresh⟩]
    exact ⟨rfl, rfl⟩

/-- C7 witness: initializing from a disk file holding the fresh valid
`proofW` at time 1 performs no fetch and serves exactly the disk proof;
and a read of the fresh cache at time 1 performs no fetch. -/
theorem disk_recovery_no_fetch_witness :
    initCache leafW (some proofW) none 1 =
      Except.ok ({ proof := proofW, updateAfterT := updateAfterTime proofW none,
                   disk := some proofW }, false) ∧
    (readOCSP leafW stW none 1 true).fetcherCalled = false ∧
    (readOCSP leafW stW none 1 true).raw = stW.proof.raw :=
  ⟨(disk_recovery_no_fetch leafW proofW none stW 1).1 (by decide) (by decide),
    ((disk_recovery_no_fetch leafW proofW none stW 1).2.1 (by decide) true).1,
    ((disk_recovery_no_fetch leafW proofW none stW 1).2.1 (by decide) true).2⟩

/-- C8: a successful GET of the known certificate name returns 200 with
`X-Content-Type-Options: nosniff` and a CBOR body that is an outer
3-item array for the two-certificate chain: the magic text "📜⛓" first,
then the leaf's header-map with exactly the two keys "cert" and "ocsp"
(no "sct"), where "ocsp" holds the currently cached proof bytes. -/
theorem serves_cert_chain (certName : String) (c1 c2 : List Nat)
    (st : CacheState) (now : Int) :
    (serveCertChain certName certName [c1, c2] st now).status = 200 ∧
    getHeader (serveCertChain certName certName [c1, c2] st now) "X-Content-Type-Options" =
      some "nosniff" ∧
    (serveCertChain certName certName [c1, c2] st now).body =
      HTTPBody.cbor (CBORItem.array [CBORItem.text "📜⛓",
        CBORItem.map [("cert", CBORItem.bytes c1), ("ocsp", CBORItem.bytes st.proof.raw)],
        CBORItem.map [("cert", CBORItem.bytes c2)]]) := by
  unfold serveCertChain certChainCBOR getHeader
  simp [List.find?]

/-- C9: a GET of an unknown certificate name returns 404 with the
standard short body, which is 19 bytes — no larger than 20. -/
theorem serves_404_unknown (certName requested : String) (chain : List (List Nat))
    (st : CacheState) (now : Int) (h : requested ≠ certName) :
    (serveCertChain certName requested chain st now).status = 404 ∧
    (serveCertChain certName requested chain st now).body =
      HTTPBody.plain "404 page not found\x0a" ∧
    ("404 page not found\x0a" : String).utf8ByteSize ≤ 20 := by
  unfold serveCertChain
  rw [if_neg h]
  exact ⟨rfl, rfl, by decide⟩

/-- C9 witness: requesting the unknown name "lalala" yields 404 with the
19-byte body. -/
theorem serves_404_unknown_witness :
    (serveCertChain "cert0" "lalala" [] stW 1).status = 404 ∧
    (serveCertChain "cert0" "lalala" [] stW 1).body =
      HTTPBody.plain "404 page not found\x0a" ∧
    ("404 page not found\x0a" : String).utf8ByteSize ≤ 20 :=
  serves_404_unknown "cert0" "lalala" [] stW 1 (by decide)

/-! ## Helper lemmas for the node-cleanup transform -/

theorem bool_and_iff {a b : Bool} : (a && b) = true ↔ a = true ∧ b = true := by
  cases a <;> cases b <;> simp

theorem sanitizeOne_key (a : HTMLAttribute) : (sanitizeOne a).key = a.key := by
  unfold sanitizeOne
  split_ifs <;> rfl

theorem any_key_sanitize (l : List HTMLAttribute) (k : String) :
    (sanitizeURIAttributes l).any (fun b => b.key == k) = l.any (fun b => b.key == k) := by
  unfold sanitizeURIAttributes
  rw [List.any_map]
  simp [Function.comp_def, sanitizeOne_key]

theorem distinctKeys_sanitize (l : List HTMLAttribute) :
    distinctKeys (sanitizeURIAttributes l) = distinctKeys l := by
  induction l with
  | nil => rfl
  | cons a l ih =>
    show distinctKeys (sanitizeOne a :: sanitizeURIAttributes l) = _
    rw [distinctKeys, distinctKeys, ih, any_key_sanitize, sanitizeOne_key]

theorem uniqueAttrsAux_not_mem_seen :
    ∀ (attrs : List HTMLAttribute) (seen : List String) (a : HTMLAttribute),
      a ∈ uniqueAttrsAux attrs seen → a.key ∉ seen := by
  intro attrs
  induction attrs with
  | nil =>
    intro seen a h
    simp [uniqueAttrsAux] at h
  | cons b rest ih =>
    intro seen a h
    rw [uniqueAttrsAux] at h
    split_ifs at h with hb
    · exact ih seen a h
    · rcases List.mem_cons.mp h with rfl | h2
      · exact hb
      · intro hmem
        exact ih _ a h2 (List.mem_cons_of_mem _ hmem)

theorem distinctKeys_uniqueAttrsAux :
    ∀ (attrs : List HTMLAttribute) (seen : List String),
      distinctKeys (uniqueAttrsAux attrs seen) = true := by
  intro attrs
  induction attrs with
  | nil => intro seen; rfl
  | cons b rest ih =>
    intro seen
    rw [uniqueAttrsAux]
    split_ifs with hb
    · exact ih seen
    · rw [distinctKeys]
      refine bool_and_iff.mpr ⟨?_, ih _⟩
      rw [Bool.not_eq_true']
      rw [List.any_eq_false]
      intro c hc
      have hnm := uniqueAttrsAux_not_mem_seen rest (b.key :: seen) c hc
      simp only [List.mem_cons, not_or] at hnm
      simp only [Bool.not_eq_true, beq_eq_false_iff_ne]
      exact hnm.1

theorem uniqueAttrsAux_sublist :
    ∀ (attrs : List HTMLAttribute) (seen : List String),
      List.Sublist (uniqueAttrsAux attrs seen) attrs := by
  intro attrs
  induction attrs with
  | nil => intro seen; exact List.Sublist.refl _
  | cons b rest ih =>
    intro seen
    rw [uniqueAttrsAux]
    split_ifs with hb
    · exact List.Sublist.cons b (ih seen)
    · exact List.Sublist.cons₂ b (ih _)

theorem uniqueAttrsAux_find? :
    ∀ (attrs : List HTMLAttribute) (seen : List String) (k : String), k ∉ seen →
      (uniqueAttrsAux attrs seen).find? (fun a => a.key == k) =
        attrs.find? (fun a => a.key == k) := by
  intro attrs
  induction attrs with
  | nil => intro seen k hk; rfl
  | cons b rest ih =>
    intro seen k hk
    rw [uniqueAttrsAux]
    split_ifs with hb
    · have hbk : (b.key == k) = false := by
        rw [beq_eq_false_iff_ne]
        intro he
        exact hk (he ▸ hb)
      rw [ih seen k hk]
      simp [List.find?_cons, hbk]
    · by_cases hbk : (b.key == k) = true
      · simp [List.find?_cons, hbk]
      · have hbk' : (b.key == k) = false := Bool.not_eq_true _ ▸ (by simpa using hbk)
        have hk2 : k ∉ b.key :: seen := by
          simp only [List.mem_cons, not_or]
          refine ⟨?_, hk⟩
          intro he
          rw [he] at hbk'
          simp at hbk'
        simp only [List.find?_cons, hbk']
        exact ih _ k hk2

theorem distinctKeys_sublist {l1 l2 : List HTMLAttribute}
    (hs : List.Sublist l1 l2) (h : distinctKeys l2 = true) : distinctKeys l1 = true := by
  induction hs with
  | slnil => rfl
  | cons a hs ih =>
    rw [distinctKeys] at h
    exact ih (bool_and_iff.mp h).2
  | cons₂ a hs ih =>
    rename_i l1' l2'
    rw [distinctKeys] at h ⊢
    obtain ⟨h1, h2⟩ := bool_and_iff.mp h
    refine bool_and_iff.mpr ⟨?_, ih h2⟩
    rw [Bool.not_eq_true'] at h1 ⊢
    rw [List.any_eq_false] at h1 ⊢
    intro c hc
    exact h1 c (hs.subset hc)

theorem goodAttrs_clean (attrs : List HTMLAttribute) :
    goodAttrs (sanitizeURIAttributes (stripNonceAttrs (uniqueAttributes attrs))) = true := by
  unfold goodAttrs
  refine bool_and_iff.mpr ⟨?_, ?_⟩
  · rw [distinctKeys_sanitize]
    exact distinctKeys_sublist (List.filter_sublist _) (distinctKeys_uniqueAttrsAux attrs [])
  · rw [List.all_eq_true]
    intro a ha
    obtain ⟨b, hb, rfl⟩ := List.mem_map.mp ha
    have hbk : b.key ≠ "nonce" := by
      have hmem := List.mem_filter.mp hb
      exact (bne_iff_ne ..).mp hmem.2
    simp only [bne_iff_ne, Ne, sanitizeOne_key]
    exact hbk

theorem elemsGoodList_append (l r : List HTMLNode) :
    elemsGoodList (l ++ r) = (elemsGoodList l && elemsGoodList r) := by
  induction l with
  | nil => simp [elemsGoodList]
  | cons n l ih =>
    rw [List.cons_append, elemsGoodList, elemsGoodList, ih, Bool.and_assoc]

theorem elemsGoodList_singleton (n : HTMLNode) : elemsGoodList [n] = elemsGood n := by
  rw [elemsGoodList, elemsGoodList, Bool.and_true]

theorem sizeOf_children_lt_node (t : NodeType) (da dt : String)
    (attr : List HTMLAttribute) (children : List HTMLNode) :
    sizeOf children < sizeOf (HTMLNode.mk t da dt attr children) := by
  simp only [HTMLNode.mk.sizeOf_spec]
  omega

theorem cleanup_good_strong (pf : String → List HTMLNode)
    (hpf : ∀ s, elemsGoodList (pf s) = true) :
    ∀ N : Nat,
      (∀ n : HTMLNode, sizeOf n ≤ N → ∀ anc prev,
        elemsGoodList (nodeCleanupTransform pf anc prev n) = true) ∧
      (∀ cs : List HTMLNode, sizeOf cs ≤ N → ∀ anc proc,
        elemsGoodList proc = true → elemsGoodList (cleanupChildren pf anc proc cs) = true) := by
  intro N
  induction N using Nat.strong_induction_on with
  | _ N ih =>
    constructor
    · intro n hn anc prev
      obtain ⟨t, da, dt, attr, children⟩ := n
      have hchild : ∀ anc2, elemsGoodList (cleanupChildren pf anc2 [] children) = true := by
        intro anc2
        have hlt : sizeOf children < N :=
          lt_of_lt_of_le (sizeOf_children_lt_node t da dt attr children) hn
        exact (ih (sizeOf children) hlt).2 children le_rfl anc2 [] rfl
      cases t with
      | commentNode => rfl
      | elementNode =>
        rw [nodeCleanupTransform]
        split_ifs with htitle
        · rfl
        · rw [elemsGoodList_singleton, elemsGood]
          refine bool_and_iff.mpr ⟨?_, hchild _⟩
          rw [if_pos rfl]
          exact goodAttrs_clean attr
      | doctypeNode =>
        rw [nodeCleanupTransform, elemsGoodList_singleton, elemsGood]
        refine bool_and_iff.mpr ⟨?_, hchild _⟩
        rw [if_neg (by simp)]
      | textNode =>
        rw [nodeCleanupTransform]
        split_ifs with hns hws
        · exact hpf dt
        · rfl
        · rw [elemsGoodList_singleton, elemsGood]
          refine bool_and_iff.mpr ⟨?_, hchild _⟩
          rw [if_neg (by simp)]
      | errorNode =>
        rw [nodeCleanupTransform, elemsGoodList_singleton, elemsGood]
        refine bool_and_iff.mpr ⟨?_, hchild _⟩
        rw [if_neg (by simp)]
      | documentNode =>
        rw [nodeCleanupTransform, elemsGoodList_singleton, elemsGood]
        refine bool_and_iff.mpr ⟨?_, hchild _⟩
        rw [if_neg (by simp)]
      | rawNode =>
        rw [nodeCleanupTransform, elemsGoodList_singleton, elemsGood]
        refine bool_and_iff.mpr ⟨?_, hchild _⟩
        rw [if_neg (by simp)]
    · intro cs hcs anc proc hproc
      cases cs with
      | nil => exact hproc
      | cons c rest =>
        rw [cleanupChildren]
        have hsc : sizeOf c < N := by
          have : sizeOf c < sizeOf (c :: rest) := by
            simp only [List.cons.sizeOf_spec]
            omega
          omega
        have hsr : sizeOf rest < N := by
          have : sizeOf rest < sizeOf (c :: rest) := by
            simp only [List.cons.sizeOf_spec]
            omega
          omega
        refine (ih (sizeOf rest) hsr).2 rest le_rfl anc _ ?_
        rw [elemsGoodList_append]
        exact bool_and_iff.mpr ⟨hproc, (ih (sizeOf c) hsc).1 c le_rfl anc proc⟩

/-! ## Claim theorem C10 -/

/-- C10 counterexample: running `nodeCleanupTransform` on the tree
`noscriptWithText` — a noscript whose single text child holds the markup
of an element carrying a nonce attribute, exactly the shape Go's
tokenizer produces — inserts the re-parsed element without any cleanup,
and the resulting tree retains an attribute with key "nonce"; so the
claimed invariant fails on this tree. -/
theorem nodeCleanup_nonce_counterexample :
    elemsGoodList (nodeCleanupTransform pfNonce [] [] noscriptWithText) = false := by
  rfl

/-- C10 (amended): after `nodeCleanupTransform` runs, every remaining
element node's attribute list has pairwise-distinct keys — for duplicated
keys the first occurrence is kept in its original relative order — and no
attribute with key "nonce", with one exception the counterexample forces:
nodes inserted by re-parsing the text contents of a noscript element are
not cleaned, so the invariant holds whenever the fragment parser's
outputs already satisfy it. -/
theorem nodeCleanup_attr_invariant (pf : String → List HTMLNode)
    (hpf : ∀ s, elemsGoodList (pf s) = true)
    (anc : List (String × String)) (prevSibs : List HTMLNode) (n : HTMLNode)
    (attrs : List HTMLAttribute) (k : String) :
    elemsGoodList (nodeCleanupTransform pf anc prevSibs n) = true ∧
    List.Sublist (uniqueAttributes attrs) attrs ∧
    (uniqueAttributes attrs).find? (fun a => a.key == k) =
      attrs.find? (fun a => a.key == k) ∧
    distinctKeys (uniqueAttributes attrs) = true :=
  ⟨(cleanup_good_strong pf hpf (sizeOf n)).1 n le_rfl anc prevSibs,
    uniqueAttrsAux_sublist attrs [],
    uniqueAttrsAux_find? attrs [] k (List.not_mem_nil k),
    distinctKeys_uniqueAttrsAux attrs []⟩

/-- C10 witness: the amended theorem applied with an inert fragment
parser to `witnessDiv`, whose duplicate `class` key collapses to its
first occurrence and whose nonce attribute is stripped. -/
theorem nodeCleanup_attr_invariant_witness :
    elemsGoodList (nodeCleanupTransform (fun _ => []) [] [] witnessDiv) = true ∧
    List.Sublist (uniqueAttributes (HTMLNode.attr witnessDiv)) (HTMLNode.attr witnessDiv) ∧
    (uniqueAttributes (HTMLNode.attr witnessDiv)).find? (fun a => a.key == "class") =
      (HTMLNode.attr witnessDiv).find? (fun a => a.key == "class") ∧
    distinctKeys (uniqueAttributes (HTMLNode.attr witnessDiv)) = true :=
  nodeCleanup_attr_invariant (fun _ => []) (fun _ => rfl) [] [] witnessDiv
    (HTMLNode.attr witnessDiv) "class"

end AmpPkg
